import Mathlib

/-!
go-filecoin: API aggregation glue and FAST test environment.

Shallow embedding of

* `node_api/api.go`: the `API` struct, `NewAPI` and the 23 capability accessors;
* `tools/fast/fastesting/basic.go`: the temp-directory name of `NewTestEnvironment` and the
  `RequireNewNode*` helpers;

together with models of the `ForkChoice` and `Mempool` components, which the design document
describes and of which this slice of the repository holds no code.

Definitions come first, theorems after them.
-/

namespace NodeApi

/-- Value of a Go `*node.Node` pointer (the address it holds). -/
structure NodePtr where
  addr : Nat
deriving DecidableEq, Repr

/-- Value of a Go `*API` pointer (the address it holds). -/
structure APIPtr where
  addr : Nat
deriving DecidableEq, Repr

/-- Declarations of package `node_api` that `api.go` uses but does not contain: the 23 sub-API
types and their constructors.  Each constructor takes the `*API` handle and returns its sub-API;
it is taken as an arbitrary function of the handle that does not write to the `API` object. -/
structure SubAPIs where
  ActorAPI : Type
  AddressAPI : Type
  BlockAPI : Type
  BootstrapAPI : Type
  ChainAPI : Type
  ConfigAPI : Type
  ClientAPI : Type
  DaemonAPI : Type
  DagAPI : Type
  IdAPI : Type
  InitAPI : Type
  LogAPI : Type
  MessageAPI : Type
  MinerAPI : Type
  MiningAPI : Type
  MpoolAPI : Type
  OrderbookAPI : Type
  PaychAPI : Type
  PingAPI : Type
  ShowAPI : Type
  SwarmAPI : Type
  VersionAPI : Type
  WalletAPI : Type
  NewActorAPI : APIPtr → ActorAPI
  NewAddressAPI : APIPtr → AddressAPI
  NewBlockAPI : APIPtr → BlockAPI
  NewBootstrapAPI : APIPtr → BootstrapAPI
  NewChainAPI : APIPtr → ChainAPI
  NewConfigAPI : APIPtr → ConfigAPI
  NewClientAPI : APIPtr → ClientAPI
  NewDaemonAPI : APIPtr → DaemonAPI
  NewDagAPI : APIPtr → DagAPI
  NewIdAPI : APIPtr → IdAPI
  NewInitAPI : APIPtr → InitAPI
  NewLogAPI : APIPtr → LogAPI
  NewMessageAPI : APIPtr → MessageAPI
  NewMinerAPI : APIPtr → MinerAPI
  NewMiningAPI : APIPtr → MiningAPI
  NewMpoolAPI : APIPtr → MpoolAPI
  NewOrderbookAPI : APIPtr → OrderbookAPI
  NewPaychAPI : APIPtr → PaychAPI
  NewPingAPI : APIPtr → PingAPI
  NewShowAPI : APIPtr → ShowAPI
  NewSwarmAPI : APIPtr → SwarmAPI
  NewVersionAPI : APIPtr → VersionAPI
  NewWalletAPI : APIPtr → WalletAPI

/-- The `API` struct (api.go, lines 9-35).  A pointer field is `none` while it holds Go's zero
value (nil) and `some v` once `v` has been assigned to it.  The field `show` is written `show_`,
`show` being a keyword. -/
structure API (D : SubAPIs) where
  node : NodePtr
  actor : Option D.ActorAPI
  address : Option D.AddressAPI
  block : Option D.BlockAPI
  bootstrap : Option D.BootstrapAPI
  chain : Option D.ChainAPI
  config : Option D.ConfigAPI
  client : Option D.ClientAPI
  daemon : Option D.DaemonAPI
  dag : Option D.DagAPI
  id : Option D.IdAPI
  init : Option D.InitAPI
  log : Option D.LogAPI
  message : Option D.MessageAPI
  miner : Option D.MinerAPI
  mining : Option D.MiningAPI
  mpool : Option D.MpoolAPI
  orderbook : Option D.OrderbookAPI
  paych : Option D.PaychAPI
  ping : Option D.PingAPI
  show_ : Option D.ShowAPI
  swarm : Option D.SwarmAPI
  version : Option D.VersionAPI
  wallet : Option D.WalletAPI

/-- Heap of `API` objects: `cells a` is the object stored at address `a`, `next` the address the
next allocation uses. -/
structure Heap (D : SubAPIs) where
  next : Nat
  cells : Nat → Option (API D)

namespace Heap

variable {D : SubAPIs}

/-- Allocation `&API{...}`: stores the object at a fresh address and returns the pointer. -/
def alloc (h : Heap D) (obj : API D) : APIPtr × Heap D :=
  (⟨h.next⟩, { next := h.next + 1, cells := fun a => if a = h.next then some obj else h.cells a })

/-- Dereference of a pointer; `none` when nothing is allocated there (nil dereference). -/
def read (h : Heap D) (p : APIPtr) : Option (API D) :=
  h.cells p.addr

/-- Field assignment through a pointer, `p.f = v`, given as the update `f` of the pointee. -/
def modify (h : Heap D) (p : APIPtr) (f : API D → API D) : Heap D :=
  { next := h.next, cells := fun a => if a = p.addr then (h.cells a).map f else h.cells a }

end Heap

/-- The composite literal `&API{node: node}` before allocation: every other field is nil. -/
def API.literal (D : SubAPIs) (node : NodePtr) : API D :=
  { node := node
    actor := none
    address := none
    block := none
    bootstrap := none
    chain := none
    config := none
    client := none
    daemon := none
    dag := none
    id := none
    init := none
    log := none
    message := none
    miner := none
    mining := none
    mpool := none
    orderbook := none
    paych := none
    ping := none
    show_ := none
    swarm := none
    version := none
    wallet := none }

/-- Function `NewAPI` (api.go, lines 41-70): allocates the `API` object holding `node`, then
assigns the 23 sub-API fields in source order, passing the same pointer `api` to every
constructor. -/
def NewAPI (D : SubAPIs) (heap : Heap D) (node : NodePtr) : APIPtr × Heap D :=
  let (api, heap) := heap.alloc (API.literal D node)
  let heap := heap.modify api (fun o => { o with actor := some (D.NewActorAPI api) })
  let heap := heap.modify api (fun o => { o with address := some (D.NewAddressAPI api) })
  let heap := heap.modify api (fun o => { o with block := some (D.NewBlockAPI api) })
  let heap := heap.modify api (fun o => { o with bootstrap := some (D.NewBootstrapAPI api) })
  let heap := heap.modify api (fun o => { o with chain := some (D.NewChainAPI api) })
  let heap := heap.modify api (fun o => { o with config := some (D.NewConfigAPI api) })
  let heap := heap.modify api (fun o => { o with client := some (D.NewClientAPI api) })
  let heap := heap.modify api (fun o => { o with daemon := some (D.NewDaemonAPI api) })
  let heap := heap.modify api (fun o => { o with dag := some (D.NewDagAPI api) })
  let heap := heap.modify api (fun o => { o with id := some (D.NewIdAPI api) })
  let heap := heap.modify api (fun o => { o with init := some (D.NewInitAPI api) })
  let heap := heap.modify api (fun o => { o with log := some (D.NewLogAPI api) })
  let heap := heap.modify api (fun o => { o with message := some (D.NewMessageAPI api) })
  let heap := heap.modify api (fun o => { o with miner := some (D.NewMinerAPI api) })
  let heap := heap.modify api (fun o => { o with mining := some (D.NewMiningAPI api) })
  let heap := heap.modify api (fun o => { o with mpool := some (D.NewMpoolAPI api) })
  let heap := heap.modify api (fun o => { o with orderbook := some (D.NewOrderbookAPI api) })
  let heap := heap.modify api (fun o => { o with paych := some (D.NewPaychAPI api) })
  let heap := heap.modify api (fun o => { o with ping := some (D.NewPingAPI api) })
  let heap := heap.modify api (fun o => { o with show_ := some (D.NewShowAPI api) })
  let heap := heap.modify api (fun o => { o with swarm := some (D.NewSwarmAPI api) })
  let heap := heap.modify api (fun o => { o with version := some (D.NewVersionAPI api) })
  let heap := heap.modify api (fun o => { o with wallet := some (D.NewWalletAPI api) })
  (api, heap)

/-- Accessor `Actor()`: returns the field `actor` of the receiver; `none` is a nil dereference. -/
def API.Actor {D : SubAPIs} (heap : Heap D) (api : APIPtr) : Option (Option D.ActorAPI) :=
  (heap.read api).map (fun o => o.actor)

/-- Accessor `Address()`: returns the field `address` of the receiver; `none` is a nil dereference. -/
def API.Address {D : SubAPIs} (heap : Heap D) (api : APIPtr) : Option (Option D.AddressAPI) :=
  (heap.read api).map (fun o => o.address)

/-- Accessor `Block()`: returns the field `block` of the receiver; `none` is a nil dereference. -/
def API.Block {D : SubAPIs} (heap : Heap D) (api : APIPtr) : Option (Option D.BlockAPI) :=
  (heap.read api).map (fun o => o.block)

/-- Accessor `Bootstrap()`: returns the field `bootstrap` of the receiver; `none` is a nil dereference. -/
def API.Bootstrap {D : SubAPIs} (heap : Heap D) (api : APIPtr) : Option (Option D.BootstrapAPI) :=
  (heap.read api).map (fun o => o.bootstrap)

/-- Accessor `Chain()`: returns the field `chain` of the receiver; `none` is a nil dereference. -/
def API.Chain {D : SubAPIs} (heap : Heap D) (api : APIPtr) : Option (Option D.ChainAPI) :=
  (heap.read api).map (fun o => o.chain)

/-- Accessor `Config()`: returns the field `config` of the receiver; `none` is a nil dereference. -/
def API.Config {D : SubAPIs} (heap : Heap D) (api : APIPtr) : Option (Option D.ConfigAPI) :=
  (heap.read api).map (fun o => o.config)

/-- Accessor `Client()`: returns the field `client` of the receiver; `none` is a nil dereference. -/
def API.Client {D : SubAPIs} (heap : Heap D) (api : APIPtr) : Option (Option D.ClientAPI) :=
  (heap.read api).map (fun o => o.client)

/-- Accessor `Daemon()`: returns the field `daemon` of the receiver; `none` is a nil dereference. -/
def API.Daemon {D : SubAPIs} (heap : Heap D) (api : APIPtr) : Option (Option D.DaemonAPI) :=
  (heap.read api).map (fun o => o.daemon)

/-- Accessor `Dag()`: returns the field `dag` of the receiver; `none` is a nil dereference. -/
def API.Dag {D : SubAPIs} (heap : Heap D) (api : APIPtr) : Option (Option D.DagAPI) :=
  (heap.read api).map (fun o => o.dag)

/-- Accessor `Id()`: returns the field `id` of the receiver; `none` is a nil dereference. -/
def API.Id {D : SubAPIs} (heap : Heap D) (api : APIPtr) : Option (Option D.IdAPI) :=
  (heap.read api).map (fun o => o.id)

/-- Accessor `Init()`: returns the field `init` of the receiver; `none` is a nil dereference. -/
def API.Init {D : SubAPIs} (heap : Heap D) (api : APIPtr) : Option (Option D.InitAPI) :=
  (heap.read api).map (fun o => o.init)

/-- Accessor `Log()`: returns the field `log` of the receiver; `none` is a nil dereference. -/
def API.Log {D : SubAPIs} (heap : Heap D) (api : APIPtr) : Option (Option D.LogAPI) :=
  (heap.read api).map (fun o => o.log)

/-- Accessor `Message()`: returns the field `message` of the receiver; `none` is a nil dereference. -/
def API.Message {D : SubAPIs} (heap : Heap D) (api : APIPtr) : Option (Option D.MessageAPI) :=
  (heap.read api).map (fun o => o.message)

/-- Accessor `Miner()`: returns the field `miner` of the receiver; `none` is a nil dereference. -/
def API.Miner {D : SubAPIs} (heap : Heap D) (api : APIPtr) : Option (Option D.MinerAPI) :=
  (heap.read api).map (fun o => o.miner)

/-- Accessor `Mining()`: returns the field `mining` of the receiver; `none` is a nil dereference. -/
def API.Mining {D : SubAPIs} (heap : Heap D) (api : APIPtr) : Option (Option D.MiningAPI) :=
  (heap.read api).map (fun o => o.mining)

/-- Accessor `Mpool()`: returns the field `mpool` of the receiver; `none` is a nil dereference. -/
def API.Mpool {D : SubAPIs} (heap : Heap D) (api : APIPtr) : Option (Option D.MpoolAPI) :=
  (heap.read api).map (fun o => o.mpool)

/-- Accessor `Orderbook()`: returns the field `orderbook` of the receiver; `none` is a nil dereference. -/
def API.Orderbook {D : SubAPIs} (heap : Heap D) (api : APIPtr) : Option (Option D.OrderbookAPI) :=
  (heap.read api).map (fun o => o.orderbook)

/-- Accessor `Paych()`: returns the field `paych` of the receiver; `none` is a nil dereference. -/
def API.Paych {D : SubAPIs} (heap : Heap D) (api : APIPtr) : Option (Option D.PaychAPI) :=
  (heap.read api).map (fun o => o.paych)

/-- Accessor `Ping()`: returns the field `ping` of the receiver; `none` is a nil dereference. -/
def API.Ping {D : SubAPIs} (heap : Heap D) (api : APIPtr) : Option (Option D.PingAPI) :=
  (heap.read api).map (fun o => o.ping)

/-- Accessor `Show()`: returns the field `show` of the receiver; `none` is a nil dereference. -/
def API.Show {D : SubAPIs} (heap : Heap D) (api : APIPtr) : Option (Option D.ShowAPI) :=
  (heap.read api).map (fun o => o.show_)

/-- Accessor `Swarm()`: returns the field `swarm` of the receiver; `none` is a nil dereference. -/
def API.Swarm {D : SubAPIs} (heap : Heap D) (api : APIPtr) : Option (Option D.SwarmAPI) :=
  (heap.read api).map (fun o => o.swarm)

/-- Accessor `Version()`: returns the field `version` of the receiver; `none` is a nil dereference. -/
def API.Version {D : SubAPIs} (heap : Heap D) (api : APIPtr) : Option (Option D.VersionAPI) :=
  (heap.read api).map (fun o => o.version)

/-- Accessor `Wallet()`: returns the field `wallet` of the receiver; `none` is a nil dereference. -/
def API.Wallet {D : SubAPIs} (heap : Heap D) (api : APIPtr) : Option (Option D.WalletAPI) :=
  (heap.read api).map (fun o => o.wallet)

end NodeApi

namespace Fastesting

/-- Go `string`: an immutable sequence of bytes. -/
abbrev GoString := List UInt8

/-! ### `strings.Replace` (Go standard library, called at basic.go line 42) -/

/-- Go's `strings.HasPrefix`: whether `s` begins with the second argument. -/
def HasPrefix : GoString → GoString → Bool
  | _, [] => true
  | [], _ :: _ => false
  | c :: s, d :: p => c == d && HasPrefix s p

/-- Go's `strings.Index`: the index of the first instance of `substr` in `s`, or `-1` if `substr`
is not present in `s`. -/
def Index : GoString → GoString → Int
  | [], substr => if HasPrefix [] substr then 0 else -1
  | c :: s, substr =>
    if HasPrefix (c :: s) substr then 0
    else
      let i := Index s substr
      if i < 0 then -1 else i + 1

/-- Width in bytes of the first UTF-8 sequence of `s`, as `utf8.DecodeRuneInString` reports it:
`0` for the empty string, `1` for an invalid or truncated encoding. -/
def runeWidth (s : GoString) : Nat :=
  let cont (b : UInt8) : Bool := 0x80 ≤ b && b ≤ 0xBF
  match s with
  | [] => 0
  | b0 :: rest =>
    if b0 < 0x80 then 1
    else if 0xC2 ≤ b0 && b0 ≤ 0xDF then
      match rest with
      | b1 :: _ => if cont b1 then 2 else 1
      | _ => 1
    else if 0xE0 ≤ b0 && b0 ≤ 0xEF then
      match rest with
      | b1 :: b2 :: _ =>
        let lo : UInt8 := if b0 = 0xE0 then 0xA0 else 0x80
        let hi : UInt8 := if b0 = 0xED then 0x9F else 0xBF
        if lo ≤ b1 && b1 ≤ hi && cont b2 then 3 else 1
      | _ => 1
    else if 0xF0 ≤ b0 && b0 ≤ 0xF4 then
      match rest with
      | b1 :: b2 :: b3 :: _ =>
        let lo : UInt8 := if b0 = 0xF0 then 0x90 else 0x80
        let hi : UInt8 := if b0 = 0xF4 then 0x8F else 0xBF
        if lo ≤ b1 && b1 ≤ hi && cont b2 && cont b3 then 4 else 1
      | _ => 1
    else 1

/-- Go's `utf8.RuneCountInString`; `fuel` bounds the number of runes counted. -/
def runeCount : Nat → GoString → Nat
  | 0, _ => 0
  | _, [] => 0
  | fuel + 1, b :: s => 1 + runeCount fuel ((b :: s).drop (runeWidth (b :: s)))

/-- The loop of `strings.Count` for a non-empty `substr`: `n` instances counted so far, `s` the
rest of the string; `fuel` bounds the number of iterations. -/
def countLoop : Nat → GoString → GoString → Nat → Nat
  | 0, _, _, n => n
  | fuel + 1, s, substr, n =>
    let i := Index s substr
    if i < 0 then n
    else countLoop fuel (s.drop (i.toNat + substr.length)) substr (n + 1)

/-- Go's `strings.Count`: the number of non-overlapping instances of `substr` in `s`; for an empty
`substr`, one more than the number of runes of `s`. -/
def Count (s substr : GoString) : Nat :=
  if substr.length = 0 then runeCount s.length s + 1
  else countLoop (s.length + 1) s substr 0

/-- The replacement loop of `strings.Replace`: `k` replacements left to do, `i` the loop counter,
`start` the read position in `s`, `b` the builder's content.  The result is the builder's content
after the final `b.WriteString(s[start:])`. -/
def replaceLoop (s old new : GoString) : Nat → Nat → Nat → GoString → GoString
  | 0, _, start, b => b ++ s.drop start
  | k + 1, i, start, b =>
    let j : Nat :=
      if old.length = 0 then
        if i > 0 then start + runeWidth (s.drop start) else start
      else start + (Index (s.drop start) old).toNat
    replaceLoop s old new k (i + 1) (j + old.length) (b ++ (s.drop start).take (j - start) ++ new)

/-- Go's `strings.Replace`: a copy of `s` with the first `n` non-overlapping instances of `old`
replaced by `new`; there is no limit on the number of replacements when `n < 0`. -/
def Replace (s old new : GoString) (n : Int) : GoString :=
  if old = new ∨ n = 0 then s
  else
    let m := Count s old
    if m = 0 then s
    else
      let n : Nat := if n < 0 ∨ (m : Int) < n then m else n.toNat
      replaceLoop s old new n 0 0 []

/-- The byte `'/'`. -/
def slash : UInt8 := 0x2F

/-- The byte `'.'`. -/
def dot : UInt8 := 0x2E

/-! ### Collaborators and the test environment -/

/-- Value of a `*fast.Filecoin` pointer: the process it designates. -/
structure Filecoin where
  id : Nat
deriving DecidableEq, Repr

/-- Value of a `context.Context`. -/
structure Context where
  id : Nat
deriving DecidableEq, Repr

/-- Struct `fast.EnvironmentOpts`, with the init and daemon options kept as their names. -/
structure EnvironmentOpts where
  InitOpts : List String
  DaemonOpts : List String
deriving DecidableEq, Repr

/-- A call made to a collaborator outside `basic.go`, with its arguments. -/
inductive Call where
  | TempDir (dir pattern : GoString)
  | NewProcess (ctx : Context) (pluginName : String) (pluginOpts : List (String × String))
      (fastenvOpts : EnvironmentOpts)
  | InitAndStart (ctx : Context) (p : Filecoin)
  | Connect (ctx : Context) (a b : Filecoin)
  | SendFilecoinDefaults (ctx : Context) (sender receiver : Filecoin) (value : Int)
deriving DecidableEq, Repr

/-- Behaviour of the collaborators the helpers call, over an outside world `W` they may read and
change: `env.NewProcess` (of the embedded `fast.Environment`), `series.InitAndStart`,
`series.Connect` and `series.SendFilecoinDefaults`.  An `error` result is `Except.error` for
`NewProcess` and `some` for the three that return only an `error`. -/
structure Collaborators (W : Type) where
  NewProcess : Context → String → List (String × String) → EnvironmentOpts → W →
    Except String Filecoin × W
  InitAndStart : Context → Filecoin → W → Option String × W
  Connect : Context → Filecoin → Filecoin → W → Option String × W
  SendFilecoinDefaults : Context → Filecoin → Filecoin → Int → W → Option String × W

/-- Struct `TestEnvironment` (basic.go, lines 22-34); the embedded `fast.Environment` and `t` act
through `Collaborators` and the failure result of the helpers. -/
structure TestEnvironment where
  ctx : Context
  pluginName : String
  pluginOpts : List (String × String)
  fastenvOpts : EnvironmentOpts
  GenesisMiner : Filecoin
deriving DecidableEq, Repr

/-- State of a run: the outside world and the collaborator calls made so far, oldest first. -/
structure Run (W : Type) where
  world : W
  calls : List Call

/-- Line 42 of `NewTestEnvironment`: the call
`ioutil.TempDir("", strings.Replace(t.Name(), "/", ".", -1))` made for a test named `name`. -/
def NewTestEnvironment.tempDirCall (name : GoString) : Call :=
  Call.TempDir [] (Replace name [slash] [dot] (-1))

/-- Method `RequireNewNode` (lines 94-101).  The result is `none` when `require.NoError` fails the
test, which stops the calling goroutine. -/
def RequireNewNode {W : Type} (C : Collaborators W) (env : TestEnvironment) (s : Run W) :
    Option Filecoin × Run W :=
  match C.NewProcess env.ctx env.pluginName env.pluginOpts env.fastenvOpts s.world with
  | (r, w) =>
    let s : Run W :=
      ⟨w, s.calls ++ [Call.NewProcess env.ctx env.pluginName env.pluginOpts env.fastenvOpts]⟩
    match r with
    | .error _ => (none, s)
    | .ok p => (some p, s)

/-- Method `RequireNewNodeStarted` (lines 105-114). -/
def RequireNewNodeStarted {W : Type} (C : Collaborators W) (env : TestEnvironment) (s : Run W) :
    Option Filecoin × Run W :=
  match RequireNewNode C env s with
  | (none, s) => (none, s)
  | (some p, s) =>
    match C.InitAndStart env.ctx p s.world with
    | (err, w) =>
      let s : Run W := ⟨w, s.calls ++ [Call.InitAndStart env.ctx p]⟩
      match err with
      | some _ => (none, s)
      | none => (some p, s)

/-- Method `RequireNewNodeConnected` (lines 118-127). -/
def RequireNewNodeConnected {W : Type} (C : Collaborators W) (env : TestEnvironment)
    (s : Run W) : Option Filecoin × Run W :=
  match RequireNewNodeStarted C env s with
  | (none, s) => (none, s)
  | (some p, s) =>
    match C.Connect env.ctx env.GenesisMiner p s.world with
    | (err, w) =>
      let s : Run W := ⟨w, s.calls ++ [Call.Connect env.ctx env.GenesisMiner p]⟩
      match err with
      | some _ => (none, s)
      | none => (some p, s)

/-- Method `RequireNewNodeWithFunds` (lines 131-140). -/
def RequireNewNodeWithFunds {W : Type} (C : Collaborators W) (env : TestEnvironment)
    (funds : Int) (s : Run W) : Option Filecoin × Run W :=
  match RequireNewNodeConnected C env s with
  | (none, s) => (none, s)
  | (some p, s) =>
    match C.SendFilecoinDefaults env.ctx env.GenesisMiner p funds s.world with
    | (err, w) =>
      let s : Run W :=
        ⟨w, s.calls ++ [Call.SendFilecoinDefaults env.ctx env.GenesisMiner p funds]⟩
      match err with
      | some _ => (none, s)
      | none => (some p, s)

/-- Collaborators that always succeed: the world counts the processes created, and the `k`-th
process gets identifier `k`. -/
def okCollaborators : Collaborators Nat where
  NewProcess := fun _ _ _ _ w => (.ok ⟨w⟩, w + 1)
  InitAndStart := fun _ _ w => (none, w)
  Connect := fun _ _ _ w => (none, w)
  SendFilecoinDefaults := fun _ _ _ _ w => (none, w)

/-- A test environment whose genesis miner is process `0`. -/
def sampleEnv : TestEnvironment where
  ctx := ⟨7⟩
  pluginName := "localfilecoin"
  pluginOpts := [("logJSON", "1"), ("logLevel", "5")]
  fastenvOpts := ⟨["genesisFile"], ["blockTime"]⟩
  GenesisMiner := ⟨0⟩

end Fastesting

namespace ForkChoice

/-- Modelled from the spec: the content-derived identifier of a block (section 3). -/
abbrev BlockID := Nat

/-- Modelled from the spec: the identity of a tipset, the sorted list of its member block IDs
(section 3). -/
abbrev TipsetID := List BlockID

/-- Modelled from the spec: `TipsetMeta = {weight, parentTipsetID, stateRoot}` (section 3). -/
structure TipsetMeta where
  weight : Nat
  parentTipsetID : TipsetID
  stateRoot : Nat
deriving DecidableEq, Repr

/-- Modelled from the spec: the `TipsetIndex` component (section 4.2), of which the repository
slice has no code.  A pure data structure: the known tipsets with their metadata, in insertion
order. -/
structure TipsetIndex where
  entries : List (TipsetID × TipsetMeta)
deriving DecidableEq, Repr

/-- Modelled from the spec: the index before any insertion. -/
def TipsetIndex.empty : TipsetIndex := ⟨[]⟩

/-- Modelled from the spec: `get(tipsetID) -> TipsetMeta?` of the missing `TipsetIndex`
(section 4.2). -/
def TipsetIndex.get (idx : TipsetIndex) (t : TipsetID) : Option TipsetMeta :=
  (idx.entries.find? (fun e => e.1 = t)).map (fun e => e.2)

/-- Modelled from the spec: `insert(tipset, meta)` of the missing `TipsetIndex` (section 4.2).
Tipsets are immutable and never deleted, and resubmitting a known one is a no-op (section 8), so
an identifier that is already present keeps its entry. -/
def TipsetIndex.insert (idx : TipsetIndex) (t : TipsetID) (m : TipsetMeta) : TipsetIndex :=
  if (idx.get t).isSome then idx else ⟨idx.entries ++ [(t, m)]⟩

/-- Modelled from the spec: the index after a sequence of insertions, oldest first. -/
def TipsetIndex.insertAll (ins : List (TipsetID × TipsetMeta)) : TipsetIndex :=
  ins.foldl (fun idx e => idx.insert e.1 e.2) TipsetIndex.empty

/-- Modelled from the spec: the identifiers known to the index, in insertion order. -/
def TipsetIndex.ids (idx : TipsetIndex) : List TipsetID :=
  idx.entries.map (fun e => e.1)

/-- Modelled from the spec: `weight(tipsetID) -> uint` (section 6) read from the index; a
tipset the index does not know weighs nothing. -/
def weight (idx : TipsetIndex) (t : TipsetID) : Nat :=
  match idx.get t with
  | some m => m.weight
  | none => 0

/-- Modelled from the spec: the comparison of the missing `ForkChoice` policy (section 4.3),
"pick maximum weight; on exact tie, pick the tipset whose block-ID multiset sorts
lexicographically smallest".  `better idx a b` says that `a` is strictly preferred to `b`. -/
def better (idx : TipsetIndex) (a b : TipsetID) : Bool :=
  decide (weight idx b < weight idx a) ||
    (decide (weight idx a = weight idx b) && decide (a < b))

/-- Modelled from the spec: `ForkChoice.select(candidates: set<TipsetID>) -> TipsetID`
(section 4.3), of which the repository slice has no code.  The candidate set is given in the
order it is enumerated; the result is `none` only for the empty set. -/
def select (idx : TipsetIndex) : List TipsetID → Option TipsetID
  | [] => none
  | c :: cs => some (cs.foldl (fun best c => if better idx c best then c else best) c)

/-- Three tipsets: two of weight 10 and one of weight 7. -/
def sampleInsertions : List (TipsetID × TipsetMeta) :=
  [([4, 9], ⟨10, [1], 100⟩), ([2, 30], ⟨10, [1], 101⟩), ([3], ⟨7, [1], 102⟩)]

end ForkChoice

namespace Mempool

/-- Modelled from the spec: the identity of a message sender (section 3). -/
abbrev Sender := Nat

/-- Modelled from the spec: `Message = {sender, nonce, payload, signature}` (section 3), with the
two attributes the pool reads off a message: its fee/priority and its size. -/
structure Message where
  sender : Sender
  nonce : Nat
  payload : List UInt8
  signature : List UInt8
  priority : Nat
  size : Nat
deriving DecidableEq, Repr

/-- Modelled from the spec: `PoolEntry = {message, receivedAt}` (section 3). -/
structure PoolEntry where
  message : Message
  receivedAt : Nat
deriving DecidableEq, Repr

/-- Modelled from the spec: the state of the missing `Mempool` component (sections 3 and 4.5):
the entries it holds and, per sender, the lowest expected nonce. -/
structure Pool where
  entries : List PoolEntry
  expected : Sender → Nat

/-- Modelled from the spec: the only error `add` reports (section 4.5). -/
inductive AddError where
  | Invalid
deriving DecidableEq, Repr

/-- Modelled from the spec: `add(message) -> Ok | Error{Invalid}` of the missing `Mempool`
(section 4.5).  `validate` is the verdict of `Validator.validateMessage`, `now` the time of
receipt.  A duplicate `(sender, nonce)` is rejected unless the new message has strictly higher
priority, in which case it supersedes the old entry. -/
def add (validate : Message → Pool → Bool) (pool : Pool) (msg : Message) (now : Nat) :
    Except AddError Pool :=
  if validate msg pool then
    match pool.entries.find?
        (fun e => e.message.sender = msg.sender ∧ e.message.nonce = msg.nonce) with
    | some old =>
      if old.message.priority < msg.priority then
        .ok { pool with
              entries := pool.entries.map (fun e =>
                if e.message.sender = msg.sender ∧ e.message.nonce = msg.nonce
                then ⟨msg, now⟩ else e) }
      else .error .Invalid
    | none => .ok { pool with entries := pool.entries ++ [⟨msg, now⟩] }
  else .error .Invalid

/-- Modelled from the spec: the nonce `selectForBlock` needs next from sender `s` once it has
chosen `chosen`: the expected nonce plus the number of messages of `s` already chosen. -/
def nextNonce (pool : Pool) (chosen : List PoolEntry) (s : Sender) : Nat :=
  pool.expected s + (chosen.filter (fun e => e.message.sender = s)).length

/-- Modelled from the spec: the total size of the chosen messages, which `maxSize` bounds. -/
def totalSize (chosen : List PoolEntry) : Nat :=
  (chosen.map (fun e => e.message.size)).sum

/-- Modelled from the spec: an entry can be appended to `chosen` when it carries the next nonce
of its sender and still fits in `maxSize`. -/
def eligible (pool : Pool) (maxSize : Nat) (chosen : List PoolEntry) (e : PoolEntry) : Bool :=
  decide (e.message.nonce = nextNonce pool chosen e.message.sender) &&
    decide (totalSize chosen + e.message.size ≤ maxSize)

/-- Modelled from the spec: "priority descending", "ties in priority broken by earliest
`receivedAt`" (section 4.5).  `preferred a b` says that `a` goes strictly before `b`. -/
def preferred (a b : PoolEntry) : Bool :=
  decide (b.message.priority < a.message.priority) ||
    (decide (a.message.priority = b.message.priority) && decide (a.receivedAt < b.receivedAt))

/-- Modelled from the spec: the most preferred entry of a list; among equally preferred ones,
the first. -/
def best : List PoolEntry → Option PoolEntry
  | [] => none
  | e :: es => some (es.foldl (fun b c => if preferred c b then c else b) e)

/-- Modelled from the spec: the selection loop of `selectForBlock`.  `k` is the number of
messages that may still be added; each round appends the most preferred eligible entry. -/
def selectLoop (pool : Pool) (maxSize : Nat) : Nat → List PoolEntry → List PoolEntry
  | 0, chosen => chosen
  | k + 1, chosen =>
    match best (pool.entries.filter (eligible pool maxSize chosen)) with
    | none => chosen
    | some e => selectLoop pool maxSize k (chosen ++ [e])

/-- Modelled from the spec: `selectForBlock(maxCount, maxSize) -> ordered sequence of Message`
of the missing `Mempool` (sections 4.5 and 6): at most `maxCount` messages of total size at most
`maxSize`, each sender's messages by ascending nonce from its expected nonce, among senders by
descending priority. -/
def selectForBlock (pool : Pool) (maxCount maxSize : Nat) : List Message :=
  (selectLoop pool maxSize maxCount []).map (fun e => e.message)

/-- Invariant of the selection loop: the nonces chosen so far for each sender are consecutive,
in ascending order, from its expected nonce. -/
def GapFree (pool : Pool) (chosen : List PoolEntry) : Prop :=
  ∀ s : Sender,
    ((chosen.filter (fun e => e.message.sender = s)).map (fun e => e.message.nonce)) =
      List.range' (pool.expected s) (chosen.filter (fun e => e.message.sender = s)).length

/-- The empty pool in which every sender's expected nonce is `0`. -/
def emptyPool : Pool := ⟨[], fun _ => 0⟩

/-- Message of sender `1` (sender A) with the given nonce and priority. -/
def msgA (nonce priority : Nat) : Message :=
  ⟨1, nonce, [], [], priority, 1⟩

/-- The pool after sender A has submitted nonces 0, 1, 2, in this order, to a validator that
accepts them; `emptyPool` stands in for a rejected submission. -/
def poolA : Pool :=
  match add (fun _ _ => true) emptyPool (msgA 0 5) 100 with
  | .error _ => emptyPool
  | .ok p0 =>
    match add (fun _ _ => true) p0 (msgA 1 9) 101 with
    | .error _ => emptyPool
    | .ok p1 =>
      match add (fun _ _ => true) p1 (msgA 2 7) 102 with
      | .error _ => emptyPool
      | .ok p2 => p2

end Mempool

namespace NodeApi

theorem Heap.read_modify {D : SubAPIs} (h : Heap D) (p : APIPtr) (f : API D → API D) :
    (h.modify p f).read p = (h.read p).map f := by
  simp [Heap.modify, Heap.read]

theorem Heap.read_modify_ne {D : SubAPIs} (h : Heap D) (p q : APIPtr) (f : API D → API D)
    (hq : q.addr ≠ p.addr) : (h.modify p f).read q = h.read q := by
  simp [Heap.modify, Heap.read, hq]

theorem Heap.read_alloc_ne {D : SubAPIs} (h : Heap D) (obj : API D) (q : APIPtr)
    (hq : q.addr ≠ h.next) : (h.alloc obj).2.read q = h.read q := by
  simp [Heap.alloc, Heap.read, hq]

theorem NewAPI_fst (D : SubAPIs) (heap : Heap D) (n : NodePtr) :
    (NewAPI D heap n).1 = ⟨heap.next⟩ := rfl

/-- The object found at the pointer returned by `NewAPI`. -/
theorem NewAPI_read (D : SubAPIs) (heap : Heap D) (n : NodePtr) :
    (NewAPI D heap n).2.read (NewAPI D heap n).1 = some
      { node := n
        actor := some (D.NewActorAPI (NewAPI D heap n).1)
        address := some (D.NewAddressAPI (NewAPI D heap n).1)
        block := some (D.NewBlockAPI (NewAPI D heap n).1)
        bootstrap := some (D.NewBootstrapAPI (NewAPI D heap n).1)
        chain := some (D.NewChainAPI (NewAPI D heap n).1)
        config := some (D.NewConfigAPI (NewAPI D heap n).1)
        client := some (D.NewClientAPI (NewAPI D heap n).1)
        daemon := some (D.NewDaemonAPI (NewAPI D heap n).1)
        dag := some (D.NewDagAPI (NewAPI D heap n).1)
        id := some (D.NewIdAPI (NewAPI D heap n).1)
        init := some (D.NewInitAPI (NewAPI D heap n).1)
        log := some (D.NewLogAPI (NewAPI D heap n).1)
        message := some (D.NewMessageAPI (NewAPI D heap n).1)
        miner := some (D.NewMinerAPI (NewAPI D heap n).1)
        mining := some (D.NewMiningAPI (NewAPI D heap n).1)
        mpool := some (D.NewMpoolAPI (NewAPI D heap n).1)
        orderbook := some (D.NewOrderbookAPI (NewAPI D heap n).1)
        paych := some (D.NewPaychAPI (NewAPI D heap n).1)
        ping := some (D.NewPingAPI (NewAPI D heap n).1)
        show_ := some (D.NewShowAPI (NewAPI D heap n).1)
        swarm := some (D.NewSwarmAPI (NewAPI D heap n).1)
        version := some (D.NewVersionAPI (NewAPI D heap n).1)
        wallet := some (D.NewWalletAPI (NewAPI D heap n).1) } := by
  rw [NewAPI_fst]
  show Heap.read (Heap.modify _ _ _) _ = _
  simp only [Heap.read_modify]
  simp only [Heap.read, Heap.alloc, ↓reduceIte, Option.map_some']
  rfl

/-- Objects at other addresses are left as they were. -/
theorem NewAPI_read_ne (D : SubAPIs) (heap : Heap D) (n : NodePtr) (q : APIPtr)
    (hq : q.addr ≠ heap.next) : (NewAPI D heap n).2.read q = heap.read q := by
  have hq2 : q.addr ≠ (⟨heap.next⟩ : APIPtr).addr := hq
  show Heap.read (Heap.modify _ _ _) _ = _
  simp only [Heap.read_modify_ne _ _ _ _ hq2]
  exact Heap.read_alloc_ne heap _ q hq

/-- C1: for every node `n`, every starting heap and every family of sub-API constructors, each
of the 23 capability accessors of the API returned by `NewAPI n` returns a set field holding
exactly the value its own constructor produced for that API handle: `Actor()` the value of
`NewActorAPI`, `Address()` of `NewAddressAPI`, and so on down to `Wallet()` of `NewWalletAPI`. -/
theorem NewAPI_accessors (D : SubAPIs) (heap : Heap D) (n : NodePtr) :
    API.Actor (NewAPI D heap n).2 (NewAPI D heap n).1 =
      some (some (D.NewActorAPI (NewAPI D heap n).1)) ∧
    API.Address (NewAPI D heap n).2 (NewAPI D heap n).1 =
      some (some (D.NewAddressAPI (NewAPI D heap n).1)) ∧
    API.Block (NewAPI D heap n).2 (NewAPI D heap n).1 =
      some (some (D.NewBlockAPI (NewAPI D heap n).1)) ∧
    API.Bootstrap (NewAPI D heap n).2 (NewAPI D heap n).1 =
      some (some (D.NewBootstrapAPI (NewAPI D heap n).1)) ∧
    API.Chain (NewAPI D heap n).2 (NewAPI D heap n).1 =
      some (some (D.NewChainAPI (NewAPI D heap n).1)) ∧
    API.Config (NewAPI D heap n).2 (NewAPI D heap n).1 =
      some (some (D.NewConfigAPI (NewAPI D heap n).1)) ∧
    API.Client (NewAPI D heap n).2 (NewAPI D heap n).1 =
      some (some (D.NewClientAPI (NewAPI D heap n).1)) ∧
    API.Daemon (NewAPI D heap n).2 (NewAPI D heap n).1 =
      some (some (D.NewDaemonAPI (NewAPI D heap n).1)) ∧
    API.Dag (NewAPI D heap n).2 (NewAPI D heap n).1 =
      some (some (D.NewDagAPI (NewAPI D heap n).1)) ∧
    API.Id (NewAPI D heap n).2 (NewAPI D heap n).1 =
      some (some (D.NewIdAPI (NewAPI D heap n).1)) ∧
    API.Init (NewAPI D heap n).2 (NewAPI D heap n).1 =
      some (some (D.NewInitAPI (NewAPI D heap n).1)) ∧
    API.Log (NewAPI D heap n).2 (NewAPI D heap n).1 =
      some (some (D.NewLogAPI (NewAPI D heap n).1)) ∧
    API.Message (NewAPI D heap n).2 (NewAPI D heap n).1 =
      some (some (D.NewMessageAPI (NewAPI D heap n).1)) ∧
    API.Miner (NewAPI D heap n).2 (NewAPI D heap n).1 =
      some (some (D.NewMinerAPI (NewAPI D heap n).1)) ∧
    API.Mining (NewAPI D heap n).2 (NewAPI D heap n).1 =
      some (some (D.NewMiningAPI (NewAPI D heap n).1)) ∧
    API.Mpool (NewAPI D heap n).2 (NewAPI D heap n).1 =
      some (some (D.NewMpoolAPI (NewAPI D heap n).1)) ∧
    API.Orderbook (NewAPI D heap n).2 (NewAPI D heap n).1 =
      some (some (D.NewOrderbookAPI (NewAPI D heap n).1)) ∧
    API.Paych (NewAPI D heap n).2 (NewAPI D heap n).1 =
      some (some (D.NewPaychAPI (NewAPI D heap n).1)) ∧
    API.Ping (NewAPI D heap n).2 (NewAPI D heap n).1 =
      some (some (D.NewPingAPI (NewAPI D heap n).1)) ∧
    API.Show (NewAPI D heap n).2 (NewAPI D heap n).1 =
      some (some (D.NewShowAPI (NewAPI D heap n).1)) ∧
    API.Swarm (NewAPI D heap n).2 (NewAPI D heap n).1 =
      some (some (D.NewSwarmAPI (NewAPI D heap n).1)) ∧
    API.Version (NewAPI D heap n).2 (NewAPI D heap n).1 =
      some (some (D.NewVersionAPI (NewAPI D heap n).1)) ∧
    API.Wallet (NewAPI D heap n).2 (NewAPI D heap n).1 =
      some (some (D.NewWalletAPI (NewAPI D heap n).1)) := by
  have h := NewAPI_read D heap n
  refine ⟨?_, ?_, ?_, ?_, ?_, ?_, ?_, ?_, ?_, ?_, ?_, ?_, ?_, ?_, ?_, ?_, ?_, ?_, ?_, ?_, ?_, ?_, ?_⟩
  all_goals first
    | exact (congrArg (Option.map (fun o => o.actor)) h)
    | exact (congrArg (Option.map (fun o => o.address)) h)
    | exact (congrArg (Option.map (fun o => o.block)) h)
    | exact (congrArg (Option.map (fun o => o.bootstrap)) h)
    | exact (congrArg (Option.map (fun o => o.chain)) h)
    | exact (congrArg (Option.map (fun o => o.config)) h)
    | exact (congrArg (Option.map (fun o => o.client)) h)
    | exact (congrArg (Option.map (fun o => o.daemon)) h)
    | exact (congrArg (Option.map (fun o => o.dag)) h)
    | exact (congrArg (Option.map (fun o => o.id)) h)
    | exact (congrArg (Option.map (fun o => o.init)) h)
    | exact (congrArg (Option.map (fun o => o.log)) h)
    | exact (congrArg (Option.map (fun o => o.message)) h)
    | exact (congrArg (Option.map (fun o => o.miner)) h)
    | exact (congrArg (Option.map (fun o => o.mining)) h)
    | exact (congrArg (Option.map (fun o => o.mpool)) h)
    | exact (congrArg (Option.map (fun o => o.orderbook)) h)
    | exact (congrArg (Option.map (fun o => o.paych)) h)
    | exact (congrArg (Option.map (fun o => o.ping)) h)
    | exact (congrArg (Option.map (fun o => o.show_)) h)
    | exact (congrArg (Option.map (fun o => o.swarm)) h)
    | exact (congrArg (Option.map (fun o => o.version)) h)
    | exact (congrArg (Option.map (fun o => o.wallet)) h)

/-- C4: for every node `n`, the API object built by `NewAPI n` holds `n` as its node, every
sub-API field holds the value its constructor returned for one and the same handle (the pointer
`NewAPI` returns, freshly allocated), and no other object of the heap is touched. -/
theorem NewAPI_shares_node (D : SubAPIs) (heap : Heap D) (n : NodePtr) :
    (NewAPI D heap n).1 = ⟨heap.next⟩ ∧
    ((NewAPI D heap n).2.read (NewAPI D heap n).1).map (fun o => o.node) = some n ∧
    (NewAPI D heap n).2.read (NewAPI D heap n).1 = some
      { node := n
        actor := some (D.NewActorAPI (NewAPI D heap n).1)
        address := some (D.NewAddressAPI (NewAPI D heap n).1)
        block := some (D.NewBlockAPI (NewAPI D heap n).1)
        bootstrap := some (D.NewBootstrapAPI (NewAPI D heap n).1)
        chain := some (D.NewChainAPI (NewAPI D heap n).1)
        config := some (D.NewConfigAPI (NewAPI D heap n).1)
        client := some (D.NewClientAPI (NewAPI D heap n).1)
        daemon := some (D.NewDaemonAPI (NewAPI D heap n).1)
        dag := some (D.NewDagAPI (NewAPI D heap n).1)
        id := some (D.NewIdAPI (NewAPI D heap n).1)
        init := some (D.NewInitAPI (NewAPI D heap n).1)
        log := some (D.NewLogAPI (NewAPI D heap n).1)
        message := some (D.NewMessageAPI (NewAPI D heap n).1)
        miner := some (D.NewMinerAPI (NewAPI D heap n).1)
        mining := some (D.NewMiningAPI (NewAPI D heap n).1)
        mpool := some (D.NewMpoolAPI (NewAPI D heap n).1)
        orderbook := some (D.NewOrderbookAPI (NewAPI D heap n).1)
        paych := some (D.NewPaychAPI (NewAPI D heap n).1)
        ping := some (D.NewPingAPI (NewAPI D heap n).1)
        show_ := some (D.NewShowAPI (NewAPI D heap n).1)
        swarm := some (D.NewSwarmAPI (NewAPI D heap n).1)
        version := some (D.NewVersionAPI (NewAPI D heap n).1)
        wallet := some (D.NewWalletAPI (NewAPI D heap n).1) } ∧
    (∀ q : APIPtr, q.addr ≠ heap.next → (NewAPI D heap n).2.read q = heap.read q) := by
  refine ⟨rfl, ?_, NewAPI_read D heap n, fun q hq => NewAPI_read_ne D heap n q hq⟩
  exact congrArg (Option.map (fun o => o.node)) (NewAPI_read D heap n)

end NodeApi

namespace Fastesting

/-! ### `strings.Replace` on a one-byte pattern -/

theorem HasPrefix_single (x c : UInt8) (t : GoString) :
    HasPrefix (x :: t) [c] = (x == c) := by
  simp [HasPrefix]

/-- For a one-byte pattern, `Index` either reports absence, or splits the string at the first
occurrence. -/
theorem Index_single_spec (c : UInt8) (s : GoString) :
    (Index s [c] = -1 ∧ c ∉ s) ∨
    (∃ pre post, s = pre ++ c :: post ∧ c ∉ pre ∧ Index s [c] = (pre.length : Int)) := by
  induction s with
  | nil => left; simp [Index, HasPrefix]
  | cons x t ih =>
    by_cases hx : x = c
    · right
      refine ⟨[], t, by simp [hx], by simp, ?_⟩
      simp [Index, HasPrefix_single, hx]
    · have hne : (x == c) = false := by simpa using hx
      have hcx : ¬ c = x := fun h => hx h.symm
      rcases ih with ⟨hi, hnot⟩ | ⟨pre, post, hs, hpre, hi⟩
      · left
        refine ⟨?_, by simp [hcx, hnot]⟩
        simp [Index, HasPrefix_single, hne, hi]
      · right
        refine ⟨x :: pre, post, by simp [hs], by simp [hcx, hpre], ?_⟩
        have hnn : ¬ ((pre.length : Int) < 0) := by omega
        simp only [Index, HasPrefix_single, hne, hi]
        simp [hnn]

theorem countLoop_single (c : UInt8) :
    ∀ (fuel : Nat) (s : GoString) (n : Nat), s.length < fuel →
      countLoop fuel s [c] n = n + s.count c := by
  intro fuel
  induction fuel with
  | zero => intro s n h; omega
  | succ k ih =>
    intro s n h
    rcases Index_single_spec c s with ⟨hi, hnot⟩ | ⟨pre, post, hs, hpre, hi⟩
    · simp [countLoop, hi, List.count_eq_zero_of_not_mem hnot]
    · have hnn : ¬ ((pre.length : Int) < 0) := by omega
      have hdrop : s.drop (pre.length + 1) = post := by
        rw [hs]; simp [List.drop_append]
      have hlen : post.length < k := by
        have : s.length = pre.length + (post.length + 1) := by rw [hs]; simp
        omega
      simp only [countLoop, hi, hnn, if_false, Int.toNat_ofNat, List.length_singleton, hdrop]
      rw [ih post (n + 1) hlen, hs]
      simp [List.count_append, List.count_eq_zero_of_not_mem hpre]
      omega

theorem Count_single (c : UInt8) (s : GoString) : Count s [c] = s.count c := by
  simp [Count, countLoop_single c (s.length + 1) s 0 (by omega)]

theorem map_replace_of_not_mem (c d : UInt8) (s : GoString) (h : c ∉ s) :
    s.map (fun b => if b = c then d else b) = s := by
  induction s with
  | nil => rfl
  | cons x t ih =>
    have hx : ¬ x = c := fun e => h (by simp [e])
    have ht : c ∉ t := fun e => h (by simp [e])
    simp [hx, ih ht]

theorem replaceLoop_single (c d : UInt8) (s : GoString) :
    ∀ (k i start : Nat) (b : GoString), (s.drop start).count c = k →
      replaceLoop s [c] [d] k i start b =
        b ++ (s.drop start).map (fun b => if b = c then d else b) := by
  intro k
  induction k with
  | zero =>
    intro i start b h
    have hnot : c ∉ s.drop start := List.count_eq_zero.mp h
    simp [replaceLoop, map_replace_of_not_mem c d _ hnot]
  | succ k ih =>
    intro i start b h
    rcases Index_single_spec c (s.drop start) with ⟨_, hnot⟩ | ⟨pre, post, hs, hpre, hi⟩
    · rw [List.count_eq_zero_of_not_mem hnot] at h; omega
    · have hdrop : s.drop (start + pre.length + 1) = post := by
        have : s.drop (start + pre.length + 1) = (s.drop start).drop (pre.length + 1) := by
          rw [List.drop_drop, Nat.add_assoc]
        rw [this, hs]; simp [List.drop_append]
      have hcount : (s.drop (start + pre.length + 1)).count c = k := by
        rw [hdrop]
        rw [hs] at h
        simp [List.count_append, List.count_eq_zero_of_not_mem hpre] at h
        omega
      have htake : (s.drop start).take (start + pre.length - start) = pre := by
        rw [hs]; simp
      simp only [replaceLoop, List.length_singleton, hi, Int.toNat_ofNat]
      simp only [Nat.one_ne_zero, if_false]
      rw [ih (i + 1) (start + pre.length + 1) _ hcount, htake, hdrop]
      rw [hs]
      simp [map_replace_of_not_mem c d pre hpre]

/-- With distinct one-byte `old` and `new` and no limit, `Replace` maps every byte. -/
theorem Replace_single (c d : UInt8) (hcd : c ≠ d) (s : GoString) :
    Replace s [c] [d] (-1) = s.map (fun b => if b = c then d else b) := by
  have h1 : ¬ ([c] = [d] ∨ (-1 : Int) = 0) := by simp [hcd]
  simp only [Replace, h1, if_false, Count_single]
  by_cases hm : s.count c = 0
  · simp [hm, map_replace_of_not_mem c d s (List.count_eq_zero.mp hm)]
  · simp only [hm, if_false]
    have := replaceLoop_single c d s (s.count c) 0 0 [] (by simp)
    simpa using this

/-- C5: for every test name `s`, the call `NewTestEnvironment` makes to `TempDir` passes the
empty directory and, as name pattern, `s` with every `'/'` byte replaced by `'.'`; that pattern
contains no `'/'`, has the length of `s`, and is `s` itself when `s` contains no `'/'`. -/
theorem tempDirCall_replaces_slashes (s : GoString) :
    ∃ p : GoString, NewTestEnvironment.tempDirCall s = Call.TempDir [] p ∧
      p = s.map (fun b => if b = slash then dot else b) ∧
      slash ∉ p ∧ p.length = s.length ∧ (slash ∉ s → p = s) := by
  have hne : slash ≠ dot := by decide
  refine ⟨_, rfl, Replace_single slash dot hne s, ?_, ?_, ?_⟩
  · rw [Replace_single slash dot hne s]
    intro hmem
    rcases List.mem_map.mp hmem with ⟨b, _, hb⟩
    by_cases hbs : b = slash
    · simp [hbs] at hb; exact hne hb.symm
    · simp [hbs] at hb
  · rw [Replace_single slash dot hne s]; simp
  · intro h
    rw [Replace_single slash dot hne s]
    exact map_replace_of_not_mem slash dot s h

/-! ### The `RequireNewNode*` helpers -/

/-- When `NewProcess` and `InitAndStart` succeed, `RequireNewNodeStarted` makes exactly these two
calls and returns the new process. -/
theorem RequireNewNodeStarted_calls {W : Type} (C : Collaborators W) (env : TestEnvironment)
    (s : Run W) (p : Filecoin) (w1 w2 : W)
    (hNew : C.NewProcess env.ctx env.pluginName env.pluginOpts env.fastenvOpts s.world =
      (.ok p, w1))
    (hStart : C.InitAndStart env.ctx p w1 = (none, w2)) :
    RequireNewNodeStarted C env s =
      (some p, ⟨w2, s.calls ++
        [Call.NewProcess env.ctx env.pluginName env.pluginOpts env.fastenvOpts,
         Call.InitAndStart env.ctx p]⟩) := by
  simp [RequireNewNodeStarted, RequireNewNode, hNew, hStart]

/-- When `NewProcess`, `InitAndStart` and `Connect` succeed, `RequireNewNodeConnected` makes
exactly these three calls and returns the new process. -/
theorem RequireNewNodeConnected_run {W : Type} (C : Collaborators W) (env : TestEnvironment)
    (s : Run W) (p : Filecoin) (w1 w2 w3 : W)
    (hNew : C.NewProcess env.ctx env.pluginName env.pluginOpts env.fastenvOpts s.world =
      (.ok p, w1))
    (hStart : C.InitAndStart env.ctx p w1 = (none, w2))
    (hConn : C.Connect env.ctx env.GenesisMiner p w2 = (none, w3)) :
    RequireNewNodeConnected C env s =
      (some p, ⟨w3, s.calls ++
        [Call.NewProcess env.ctx env.pluginName env.pluginOpts env.fastenvOpts,
         Call.InitAndStart env.ctx p,
         Call.Connect env.ctx env.GenesisMiner p]⟩) := by
  have h := RequireNewNodeStarted_calls C env s p w1 w2 hNew hStart
  simp [RequireNewNodeConnected, h, hConn]

/-- C3: when `NewProcess`, `InitAndStart` and `Connect` succeed, `RequireNewNodeConnected`
obtains its node from `RequireNewNodeStarted`, makes the collaborator calls `NewProcess`,
`InitAndStart(node)`, `Connect(GenesisMiner, node)` in this order with `GenesisMiner` as first
argument of `Connect`, and returns the node that `NewProcess` created. -/
theorem RequireNewNodeConnected_calls {W : Type} (C : Collaborators W) (env : TestEnvironment)
    (s : Run W) (p : Filecoin) (w1 w2 w3 : W)
    (hNew : C.NewProcess env.ctx env.pluginName env.pluginOpts env.fastenvOpts s.world =
      (.ok p, w1))
    (hStart : C.InitAndStart env.ctx p w1 = (none, w2))
    (hConn : C.Connect env.ctx env.GenesisMiner p w2 = (none, w3)) :
    (RequireNewNodeStarted C env s).1 = some p ∧
    RequireNewNodeConnected C env s =
      (some p, ⟨w3, s.calls ++
        [Call.NewProcess env.ctx env.pluginName env.pluginOpts env.fastenvOpts,
         Call.InitAndStart env.ctx p,
         Call.Connect env.ctx env.GenesisMiner p]⟩) := by
  refine ⟨?_, RequireNewNodeConnected_run C env s p w1 w2 w3 hNew hStart hConn⟩
  rw [RequireNewNodeStarted_calls C env s p w1 w2 hNew hStart]

/-- Instance of C3: with collaborators that always succeed and one process already created, a
second process is created, started and connected to the genesis miner (process `0`). -/
theorem RequireNewNodeConnected_calls_witness :
    (okCollaborators.NewProcess sampleEnv.ctx sampleEnv.pluginName sampleEnv.pluginOpts
        sampleEnv.fastenvOpts 1 = (.ok ⟨1⟩, 2) ∧
      okCollaborators.InitAndStart sampleEnv.ctx ⟨1⟩ 2 = (none, 2) ∧
      okCollaborators.Connect sampleEnv.ctx sampleEnv.GenesisMiner ⟨1⟩ 2 = (none, 2)) ∧
    (RequireNewNodeStarted okCollaborators sampleEnv ⟨1, []⟩).1 = some ⟨1⟩ ∧
    RequireNewNodeConnected okCollaborators sampleEnv ⟨1, []⟩ =
      (some ⟨1⟩, ⟨2, [] ++
        [Call.NewProcess sampleEnv.ctx sampleEnv.pluginName sampleEnv.pluginOpts
           sampleEnv.fastenvOpts,
         Call.InitAndStart sampleEnv.ctx ⟨1⟩,
         Call.Connect sampleEnv.ctx sampleEnv.GenesisMiner ⟨1⟩]⟩) :=
  ⟨⟨rfl, rfl, rfl⟩,
    RequireNewNodeConnected_calls okCollaborators sampleEnv ⟨1, []⟩ ⟨1⟩ 2 2 2 rfl rfl rfl⟩

/-- When all four collaborators succeed, `RequireNewNodeWithFunds` makes four calls: those of
`RequireNewNodeConnected`, then `SendFilecoinDefaults`. -/
theorem RequireNewNodeWithFunds_calls {W : Type} (C : Collaborators W) (env : TestEnvironment)
    (funds : Int) (s : Run W) (p : Filecoin) (w1 w2 w3 w4 : W)
    (hNew : C.NewProcess env.ctx env.pluginName env.pluginOpts env.fastenvOpts s.world =
      (.ok p, w1))
    (hStart : C.InitAndStart env.ctx p w1 = (none, w2))
    (hConn : C.Connect env.ctx env.GenesisMiner p w2 = (none, w3))
    (hSend : C.SendFilecoinDefaults env.ctx env.GenesisMiner p funds w3 = (none, w4)) :
    RequireNewNodeWithFunds C env funds s =
      (some p, ⟨w4, s.calls ++
        [Call.NewProcess env.ctx env.pluginName env.pluginOpts env.fastenvOpts,
         Call.InitAndStart env.ctx p,
         Call.Connect env.ctx env.GenesisMiner p,
         Call.SendFilecoinDefaults env.ctx env.GenesisMiner p funds]⟩) := by
  have h := RequireNewNodeConnected_run C env s p w1 w2 w3 hNew hStart hConn
  simp [RequireNewNodeWithFunds, h, hSend]

/-- C2: with collaborators that always succeed and `funds = 5`, `RequireNewNodeWithFunds` calls
`NewProcess`, `InitAndStart`, `Connect(GenesisMiner, node)` and then `SendFilecoinDefaults`; this
is not the call sequence of `RequireNewNodeStarted` followed by one `SendFilecoinDefaults`. -/
theorem RequireNewNodeWithFunds_connects_first :
    (RequireNewNodeWithFunds okCollaborators sampleEnv 5 ⟨1, []⟩).1 = some ⟨1⟩ ∧
    (RequireNewNodeWithFunds okCollaborators sampleEnv 5 ⟨1, []⟩).2.calls =
      [Call.NewProcess sampleEnv.ctx sampleEnv.pluginName sampleEnv.pluginOpts
         sampleEnv.fastenvOpts,
       Call.InitAndStart sampleEnv.ctx ⟨1⟩,
       Call.Connect sampleEnv.ctx sampleEnv.GenesisMiner ⟨1⟩,
       Call.SendFilecoinDefaults sampleEnv.ctx sampleEnv.GenesisMiner ⟨1⟩ 5] ∧
    (RequireNewNodeWithFunds okCollaborators sampleEnv 5 ⟨1, []⟩).2.calls ≠
      (RequireNewNodeStarted okCollaborators sampleEnv ⟨1, []⟩).2.calls ++
        [Call.SendFilecoinDefaults sampleEnv.ctx sampleEnv.GenesisMiner ⟨1⟩ 5] := by
  refine ⟨rfl, rfl, ?_⟩
  decide

end Fastesting

namespace ForkChoice

theorem better_iff (idx : TipsetIndex) (a b : TipsetID) :
    better idx a b = true ↔
      weight idx b < weight idx a ∨ (weight idx a = weight idx b ∧ a < b) := by
  simp [better]

theorem better_irrefl (idx : TipsetIndex) (a : TipsetID) : ¬ better idx a a = true := by
  rw [better_iff]
  rintro (h | ⟨_, h⟩)
  · omega
  · exact lt_irrefl a h

theorem better_asymm (idx : TipsetIndex) (a b : TipsetID)
    (h : better idx a b = true) : ¬ better idx b a = true := by
  simp only [better_iff] at *
  rintro (h' | ⟨hw', hl'⟩)
  · rcases h with h | ⟨hw, _⟩ <;> omega
  · rcases h with h | ⟨_, hl⟩
    · omega
    · exact lt_asymm hl hl'

/-- Negative transitivity: whatever is preferred to `c` is preferred to `b`, unless `b` is
preferred to `c`. -/
theorem better_cotrans (idx : TipsetIndex) (a b c : TipsetID)
    (h : better idx a c = true) : better idx a b = true ∨ better idx b c = true := by
  simp only [better_iff] at *
  rcases h with h | ⟨hw, hl⟩
  · rcases Nat.lt_trichotomy (weight idx b) (weight idx a) with h1 | h1 | h1
    · exact Or.inl (Or.inl h1)
    · exact Or.inr (Or.inl (by omega))
    · exact Or.inr (Or.inl (by omega))
  · rcases Nat.lt_trichotomy (weight idx b) (weight idx a) with h1 | h1 | h1
    · exact Or.inl (Or.inl h1)
    · rcases lt_trichotomy a b with h2 | h2 | h2
      · exact Or.inl (Or.inr ⟨h1.symm, h2⟩)
      · subst h2; exact Or.inr (Or.inr ⟨hw, hl⟩)
      · exact Or.inr (Or.inr ⟨by omega, lt_trans h2 hl⟩)
    · exact Or.inr (Or.inl (by omega))

/-- Two tipsets neither of which is preferred to the other are the same tipset. -/
theorem eq_of_not_better (idx : TipsetIndex) (a b : TipsetID)
    (h1 : ¬ better idx a b = true) (h2 : ¬ better idx b a = true) : a = b := by
  simp only [better_iff] at h1 h2
  rcases lt_trichotomy a b with h | h | h
  · exact absurd (by
      rcases Nat.lt_trichotomy (weight idx a) (weight idx b) with hw | hw | hw
      · exact Or.inr (Or.inl hw)
      · exact Or.inl (Or.inr ⟨hw, h⟩)
      · exact Or.inl (Or.inl hw)) (not_or.mpr ⟨h1, h2⟩)
  · exact h
  · exact absurd (by
      rcases Nat.lt_trichotomy (weight idx a) (weight idx b) with hw | hw | hw
      · exact Or.inr (Or.inl hw)
      · exact Or.inr (Or.inr ⟨hw.symm, h⟩)
      · exact Or.inl (Or.inl hw)) (not_or.mpr ⟨h1, h2⟩)

/-- The fold of `select` ends on a candidate to which no candidate is preferred. -/
theorem foldl_better_spec (idx : TipsetIndex) :
    ∀ (cs : List TipsetID) (c : TipsetID),
      cs.foldl (fun best c => if better idx c best then c else best) c ∈ c :: cs ∧
      ∀ x ∈ c :: cs,
        ¬ better idx x (cs.foldl (fun best c => if better idx c best then c else best) c)
          = true := by
  intro cs
  induction cs with
  | nil =>
    intro c
    refine ⟨by simp, ?_⟩
    intro x hx
    simp only [List.mem_singleton] at hx
    subst hx
    simpa using better_irrefl idx x
  | cons d ds ih =>
    intro c
    simp only [List.foldl_cons]
    obtain ⟨hmem, hbest⟩ := ih (if better idx d c then d else c)
    have hstep : ¬ better idx c (if better idx d c then d else c) = true ∧
        ¬ better idx d (if better idx d c then d else c) = true := by
      by_cases hdc : better idx d c = true
      · simp only [hdc, if_true]
        exact ⟨better_asymm idx d c hdc, better_irrefl idx d⟩
      · simp only [hdc]
        exact ⟨better_irrefl idx c, hdc⟩
    refine ⟨?_, ?_⟩
    · rcases List.mem_cons.mp hmem with h | h
      · rw [h]
        by_cases hdc : better idx d c = true <;> simp [hdc]
      · simp [h]
    · intro x hx
      have hr0 := hbest _ (List.mem_cons_self _ _)
      rcases List.mem_cons.mp hx with h | h
      · subst h
        intro hxr
        rcases better_cotrans idx x (if better idx d x then d else x) _ hxr with h1 | h1
        · exact hstep.1 h1
        · exact hr0 h1
      · rcases List.mem_cons.mp h with h | h
        · subst h
          intro hxr
          rcases better_cotrans idx x (if better idx x c then x else c) _ hxr with h1 | h1
          · exact hstep.2 h1
          · exact hr0 h1
        · exact hbest x (List.mem_cons_of_mem _ h)

theorem select_eq_none_iff (idx : TipsetIndex) (cs : List TipsetID) :
    select idx cs = none ↔ cs = [] := by
  cases cs <;> simp [select]

/-- The selected tipset is a candidate to which no candidate is preferred. -/
theorem select_spec (idx : TipsetIndex) (cs : List TipsetID) (h : TipsetID)
    (hsel : select idx cs = some h) :
    h ∈ cs ∧ ∀ x ∈ cs, ¬ better idx x h = true := by
  cases cs with
  | nil => simp [select] at hsel
  | cons c cs =>
    simp only [select, Option.some.injEq] at hsel
    rw [← hsel]
    exact foldl_better_spec idx cs c

/-- The selection does not depend on the order in which the candidates are enumerated. -/
theorem select_perm (idx : TipsetIndex) (cs₁ cs₂ : List TipsetID) (hp : cs₁.Perm cs₂) :
    select idx cs₁ = select idx cs₂ := by
  cases h1 : select idx cs₁ with
  | none =>
    have : cs₁ = [] := (select_eq_none_iff idx cs₁).mp h1
    subst this
    have : cs₂ = [] := List.Perm.nil_eq hp |>.symm
    subst this
    rfl
  | some r1 =>
    cases h2 : select idx cs₂ with
    | none =>
      have : cs₂ = [] := (select_eq_none_iff idx cs₂).mp h2
      subst this
      have : cs₁ = [] := List.Perm.eq_nil hp
      subst this
      simp [select] at h1
    | some r2 =>
      obtain ⟨m1, b1⟩ := select_spec idx cs₁ r1 h1
      obtain ⟨m2, b2⟩ := select_spec idx cs₂ r2 h2
      have e : r1 = r2 :=
        eq_of_not_better idx r1 r2 (b2 r1 (hp.mem_iff.mp m1)) (b1 r2 (hp.mem_iff.mpr m2))
      rw [e]

/-- Inserting tipsets with pairwise distinct identifiers appends them to the index. -/
theorem foldl_insert_entries :
    ∀ (ins : List (TipsetID × TipsetMeta)) (idx : TipsetIndex),
      (idx.entries.map Prod.fst ++ ins.map Prod.fst).Nodup →
      (ins.foldl (fun idx e => idx.insert e.1 e.2) idx).entries = idx.entries ++ ins := by
  intro ins
  induction ins with
  | nil => intro idx _; simp
  | cons e rest ih =>
    intro idx hnd
    have hnot : e.1 ∉ idx.entries.map Prod.fst := by
      intro hmem
      have := List.nodup_append.mp hnd
      exact this.2.2 hmem (by simp)
    have hget : idx.get e.1 = none := by
      simp only [TipsetIndex.get, Option.map_eq_none', List.find?_eq_none]
      intro x hx
      simp only [decide_eq_true_eq]
      intro hxe
      exact hnot (List.mem_map.mpr ⟨x, hx, hxe⟩)
    have hins : idx.insert e.1 e.2 = ⟨idx.entries ++ [e]⟩ := by
      simp [TipsetIndex.insert, hget]
    simp only [List.foldl_cons, hins]
    rw [ih ⟨idx.entries ++ [e]⟩ (by simpa [List.append_assoc] using hnd)]
    simp

theorem insertAll_entries (ins : List (TipsetID × TipsetMeta))
    (hnd : (ins.map Prod.fst).Nodup) : (TipsetIndex.insertAll ins).entries = ins := by
  have := foldl_insert_entries ins TipsetIndex.empty (by simpa [TipsetIndex.empty] using hnd)
  simpa [TipsetIndex.insertAll, TipsetIndex.empty] using this

/-- In a list with pairwise distinct identifiers, looking an identifier up finds its entry. -/
theorem find?_of_mem_nodup :
    ∀ (l : List (TipsetID × TipsetMeta)) (e : TipsetID × TipsetMeta),
      (l.map Prod.fst).Nodup → e ∈ l → l.find? (fun x => x.1 = e.1) = some e := by
  intro l
  induction l with
  | nil => intro e _ h; simp at h
  | cons x xs ih =>
    intro e hnd hmem
    have hnd' : x.1 ∉ xs.map Prod.fst ∧ (xs.map Prod.fst).Nodup :=
      List.nodup_cons.mp (by rw [List.map_cons] at hnd; exact hnd)
    rcases List.mem_cons.mp hmem with h | h
    · subst h; simp
    · have hne : ¬ x.1 = e.1 := by
        intro hx
        exact hnd'.1 (by rw [hx]; exact List.mem_map.mpr ⟨e, h, rfl⟩)
      simp only [List.find?_cons, hne, decide_False]
      exact ih e hnd'.2 h

theorem weight_insertAll_of_mem (ins : List (TipsetID × TipsetMeta))
    (hnd : (ins.map Prod.fst).Nodup) (e : TipsetID × TipsetMeta) (he : e ∈ ins) :
    weight (TipsetIndex.insertAll ins) e.1 = e.2.weight := by
  simp [weight, TipsetIndex.get, insertAll_entries ins hnd, find?_of_mem_nodup ins e hnd he]

/-- C6: for every sequence of insertions of tipsets with pairwise distinct identifiers and every
permutation of it, `select` over the tipsets of the resulting index returns the same head; when
there is a candidate, that head is an inserted tipset of maximum weight and, among those of
maximum weight, the one with the lexicographically smallest sorted block-ID list.  Moreover, for
any index, `select` does not depend on the order in which its candidate set is enumerated. -/
theorem select_order_independent (ins₁ ins₂ : List (TipsetID × TipsetMeta))
    (hperm : ins₁.Perm ins₂) (hnd : (ins₁.map Prod.fst).Nodup) :
    select (TipsetIndex.insertAll ins₁) (TipsetIndex.insertAll ins₁).ids =
      select (TipsetIndex.insertAll ins₂) (TipsetIndex.insertAll ins₂).ids ∧
    (ins₁ ≠ [] → ∃ h mh,
      select (TipsetIndex.insertAll ins₁) (TipsetIndex.insertAll ins₁).ids = some h ∧
      (h, mh) ∈ ins₁ ∧
      ∀ c mc, (c, mc) ∈ ins₁ → mc.weight < mh.weight ∨ (mc.weight = mh.weight ∧ h ≤ c)) ∧
    (∀ (idx : TipsetIndex) (cs₁ cs₂ : List TipsetID), cs₁.Perm cs₂ →
      select idx cs₁ = select idx cs₂) := by
  have hnd₂ : (ins₂.map Prod.fst).Nodup := (hperm.map Prod.fst).nodup_iff.mp hnd
  have hw : ∀ e ∈ ins₁, weight (TipsetIndex.insertAll ins₁) e.1 = e.2.weight :=
    fun e he => weight_insertAll_of_mem ins₁ hnd e he
  have hids₁ : (TipsetIndex.insertAll ins₁).ids = ins₁.map Prod.fst := by
    simp [TipsetIndex.ids, insertAll_entries ins₁ hnd]
  have hids₂ : (TipsetIndex.insertAll ins₂).ids = ins₂.map Prod.fst := by
    simp [TipsetIndex.ids, insertAll_entries ins₂ hnd₂]
  refine ⟨?_, ?_, fun idx cs₁ cs₂ hp => select_perm idx cs₁ cs₂ hp⟩
  · -- the candidates are permuted and both indexes give them the same preferences
    rw [hids₁, hids₂, ← select_perm _ _ _ (hperm.map Prod.fst)]
    have hbetter : ∀ a ∈ ins₁.map Prod.fst, ∀ b ∈ ins₁.map Prod.fst,
        better (TipsetIndex.insertAll ins₁) a b = better (TipsetIndex.insertAll ins₂) a b := by
      intro a ha b hb
      obtain ⟨ea, hea, rfl⟩ := List.mem_map.mp ha
      obtain ⟨eb, heb, rfl⟩ := List.mem_map.mp hb
      simp only [better, hw ea hea, hw eb heb,
        weight_insertAll_of_mem ins₂ hnd₂ ea (hperm.mem_iff.mp hea),
        weight_insertAll_of_mem ins₂ hnd₂ eb (hperm.mem_iff.mp heb)]
    cases hsel : select (TipsetIndex.insertAll ins₁) (ins₁.map Prod.fst) with
    | none =>
      have := (select_eq_none_iff _ _).mp hsel
      rw [this]; rfl
    | some r1 =>
      cases hsel₂ : select (TipsetIndex.insertAll ins₂) (ins₁.map Prod.fst) with
      | none =>
        have := (select_eq_none_iff _ _).mp hsel₂
        rw [this] at hsel
        simp [select] at hsel
      | some r2 =>
        obtain ⟨m1, b1⟩ := select_spec _ _ r1 hsel
        obtain ⟨m2, b2⟩ := select_spec _ _ r2 hsel₂
        have e : r1 = r2 := by
          apply eq_of_not_better (TipsetIndex.insertAll ins₁) r1 r2
          · rw [hbetter r1 m1 r2 m2]; exact b2 r1 m1
          · exact b1 r2 m2
        rw [e]
  · intro hne
    cases hsel : select (TipsetIndex.insertAll ins₁) (TipsetIndex.insertAll ins₁).ids with
    | none =>
      have := (select_eq_none_iff _ _).mp hsel
      rw [hids₁] at this
      exact absurd (List.map_eq_nil_iff.mp this) hne
    | some h =>
      obtain ⟨hm, hb⟩ := select_spec _ _ h hsel
      rw [hids₁] at hm hb
      obtain ⟨eh, heh, rfl⟩ := List.mem_map.mp hm
      refine ⟨eh.1, eh.2, rfl, heh, ?_⟩
      intro c mc hc
      have hnb := hb c (List.mem_map.mpr ⟨(c, mc), hc, rfl⟩)
      rw [better_iff, hw eh heh, hw (c, mc) hc] at hnb
      simp only [not_or, not_and, not_lt] at hnb
      rcases Nat.lt_or_ge mc.weight eh.2.weight with hlt | hge
      · exact Or.inl hlt
      · have heq : mc.weight = eh.2.weight := Nat.le_antisymm hnb.1 hge
        exact Or.inr ⟨heq, hnb.2 heq⟩

/-- Instance of C6: three tipsets inserted in one order and in the reverse order. -/
theorem select_order_independent_witness :
    sampleInsertions.Perm sampleInsertions.reverse ∧
    (sampleInsertions.map Prod.fst).Nodup ∧
    select (TipsetIndex.insertAll sampleInsertions) (TipsetIndex.insertAll sampleInsertions).ids =
      select (TipsetIndex.insertAll sampleInsertions.reverse)
        (TipsetIndex.insertAll sampleInsertions.reverse).ids :=
  ⟨(List.reverse_perm sampleInsertions).symm, by decide,
    (select_order_independent sampleInsertions sampleInsertions.reverse
      (List.reverse_perm sampleInsertions).symm (by decide)).1⟩

end ForkChoice

namespace Mempool

theorem foldl_preferred_mem :
    ∀ (es : List PoolEntry) (e : PoolEntry),
      es.foldl (fun b c => if preferred c b then c else b) e ∈ e :: es := by
  intro es
  induction es with
  | nil => intro e; simp
  | cons d ds ih =>
    intro e
    simp only [List.foldl_cons]
    rcases List.mem_cons.mp (ih (if preferred d e then d else e)) with h | h
    · rw [h]
      by_cases hde : preferred d e = true <;> simp [hde]
    · simp [h]

theorem best_mem (l : List PoolEntry) (e : PoolEntry) (h : best l = some e) : e ∈ l := by
  cases l with
  | nil => simp [best] at h
  | cons x xs =>
    simp only [best, Option.some.injEq] at h
    rw [← h]
    exact foldl_preferred_mem xs x

theorem GapFree_append (pool : Pool) (chosen : List PoolEntry) (e : PoolEntry)
    (hinv : GapFree pool chosen)
    (hn : e.message.nonce = nextNonce pool chosen e.message.sender) :
    GapFree pool (chosen ++ [e]) := by
  intro s
  by_cases hs : e.message.sender = s
  · subst hs
    have h1 := hinv e.message.sender
    simp only [List.filter_append, List.filter_cons, decide_True, if_true, List.filter_nil,
      List.map_append, List.map_cons, List.map_nil, List.length_append, List.length_singleton]
    rw [h1, List.range'_concat, hn, nextNonce]
    simp
  · have h1 := hinv s
    simp only [List.filter_append, List.filter_cons, hs, decide_False, Bool.false_eq_true,
      if_false, List.filter_nil, List.append_nil]
    exact h1

/-- What the selection loop preserves: the chosen entries stay gap-free, come from the pool and
fit in `maxSize`; at most `k` entries are added. -/
theorem selectLoop_spec (pool : Pool) (maxSize : Nat) :
    ∀ (k : Nat) (chosen : List PoolEntry),
      GapFree pool chosen → (∀ e ∈ chosen, e ∈ pool.entries) → totalSize chosen ≤ maxSize →
      GapFree pool (selectLoop pool maxSize k chosen) ∧
      (∀ e ∈ selectLoop pool maxSize k chosen, e ∈ pool.entries) ∧
      totalSize (selectLoop pool maxSize k chosen) ≤ maxSize ∧
      (selectLoop pool maxSize k chosen).length ≤ chosen.length + k := by
  intro k
  induction k with
  | zero => intro chosen h1 h2 h3; exact ⟨h1, h2, h3, by simp [selectLoop]⟩
  | succ k ih =>
    intro chosen h1 h2 h3
    simp only [selectLoop]
    cases hb : best (pool.entries.filter (eligible pool maxSize chosen)) with
    | none => exact ⟨h1, h2, h3, by dsimp only; omega⟩
    | some e =>
      have hmem := best_mem _ e hb
      obtain ⟨hpool, helig⟩ := List.mem_filter.mp hmem
      simp only [eligible, Bool.and_eq_true, decide_eq_true_eq] at helig
      have hsize : totalSize (chosen ++ [e]) ≤ maxSize := by
        simpa [totalSize] using helig.2
      have hfrom : ∀ x ∈ chosen ++ [e], x ∈ pool.entries := by
        intro x hx
        rcases List.mem_append.mp hx with h | h
        · exact h2 x h
        · simp only [List.mem_singleton] at h; rw [h]; exact hpool
      obtain ⟨r1, r2, r3, r4⟩ :=
        ih (chosen ++ [e]) (GapFree_append pool chosen e h1 helig.1) hfrom hsize
      refine ⟨r1, r2, r3, ?_⟩
      simp only [List.length_append, List.length_singleton] at r4
      dsimp only
      omega

/-- C7: for every pool state, `maxCount`, `maxSize` and sender, the messages of that sender
returned by `selectForBlock` carry consecutive nonces in ascending order starting at the sender's
expected nonce; the result has at most `maxCount` messages, all taken from the pool, of total
size at most `maxSize`.  After sender A has submitted nonces 0, 1, 2 with expected nonce 0,
`selectForBlock(10, 1000)` returns exactly these three messages in the order 0, 1, 2. -/
theorem selectForBlock_no_nonce_gap (pool : Pool) (maxCount maxSize : Nat) (s : Sender) :
    (((selectForBlock pool maxCount maxSize).filter (fun m => m.sender = s)).map
        (fun m => m.nonce) =
      List.range' (pool.expected s)
        ((selectForBlock pool maxCount maxSize).filter (fun m => m.sender = s)).length) ∧
    (selectForBlock pool maxCount maxSize).length ≤ maxCount ∧
    ((selectForBlock pool maxCount maxSize).map (fun m => m.size)).sum ≤ maxSize ∧
    (∀ m ∈ selectForBlock pool maxCount maxSize, ∃ e ∈ pool.entries, e.message = m) ∧
    selectForBlock poolA 10 1000 = [msgA 0 5, msgA 1 9, msgA 2 7] ∧
    (selectForBlock poolA 10 1000).map (fun m => m.nonce) = [0, 1, 2] := by
  obtain ⟨r1, r2, r3, r4⟩ := selectLoop_spec pool maxSize maxCount []
    (by intro s; simp) (by simp) (by simp [totalSize])
  refine ⟨?_, ?_, ?_, ?_, by decide, by decide⟩
  · have h := r1 s
    simp only [selectForBlock, List.filter_map, List.map_map, List.length_map]
    exact h
  · simpa [selectForBlock] using r4
  · simpa [selectForBlock, totalSize] using r3
  · intro m hm
    simp only [selectForBlock, List.mem_map] at hm
    obtain ⟨e, he, rfl⟩ := hm
    exact ⟨e, r2 e he, rfl⟩

end Mempool
